import Mathlib

/-!
Verification development for the SME financial-health backend's transaction
normalization pipeline and derived-metrics engine
(`app/main.py`, `app/utils.py`, `app/routes_invoice_ocr.py`).

Python floats are modelled as exact rationals (`ℚ`); `float("nan")` /
`float("inf")` string inputs are treated as unparseable (they are outside the
rational model).  Python strings are modelled as `String` / `List Char`
(ASCII case folding, which covers all data the theorems evaluate).
-/

deriving instance DecidableEq for Except

namespace FinHealth

/-- A calendar date (`datetime.date`). -/
structure SDate where
  year : Nat
  month : Nat
  day : Nat
deriving DecidableEq, Repr

/-- One cell of a pandas DataFrame: NaN, a string, a float, or a date object. -/
inductive Cell where
  | nan : Cell
  | str : String → Cell
  | num : ℚ → Cell
  | date : SDate → Cell
deriving DecidableEq, Repr

/-- A tabular dataset: header row plus data rows (cells aligned with `cols`). -/
structure Frame where
  cols : List String
  rows : List (List Cell)
deriving DecidableEq, Repr

/-- Python `\s` whitespace class (ASCII). -/
def pyWs (c : Char) : Bool :=
  c = ' ' || c = '\t' || c = '\n' || c = '\r' || c = '\x0b' || c = '\x0c'

/-- Strip leading/trailing whitespace from a char list (Python `str.strip()`). -/
def stripL (cs : List Char) : List Char :=
  ((cs.dropWhile pyWs).reverse.dropWhile pyWs).reverse

/-- Python `str.strip()`. -/
def stripStr (s : String) : String := ⟨stripL s.data⟩

/-- Python `str.lower()` (ASCII). -/
def lowerStr (s : String) : String := ⟨s.data.map Char.toLower⟩

/-- Python `str.upper()` (ASCII). -/
def upperStr (s : String) : String := ⟨s.data.map Char.toUpper⟩

/-- Python slice `s[:n]`. -/
def sliceStr (s : String) (n : Nat) : String := ⟨s.data.take n⟩

/-- Value of a list of decimal digit characters. -/
def natOfDigitsCh (ds : List Char) : Nat :=
  ds.foldl (fun a c => 10 * a + (c.toNat - '0'.toNat)) 0

/-- Zero-pad a number to 2 digits (`%02d`). -/
def pad2 (n : Nat) : String :=
  if n < 10 then "0" ++ toString n else toString n

/-- Zero-pad a number to 4 digits (`%04d`). -/
def pad4 (n : Nat) : String :=
  if n < 10 then "000" ++ toString n
  else if n < 100 then "00" ++ toString n
  else if n < 1000 then "0" ++ toString n
  else toString n

/-- Formats the zero-padded `YYYY-MM` month key. -/
def ymStr (y m : Nat) : String := pad4 y ++ "-" ++ pad2 m

/-- Python `str(d)` for a `datetime.date`: ISO `YYYY-MM-DD`. -/
def dateStr (d : SDate) : String := ymStr d.year d.month ++ "-" ++ pad2 d.day

/-- Exponent suffix of a Python float literal: `[(e|E) [+|-] digits]` and
end of input.  Returns the mantissa scaled by the exponent. -/
def expPart (b : ℚ) : List Char → Option ℚ
  | [] => some b
  | c :: r =>
      if c = 'e' ∨ c = 'E' then
        let se : Int × List Char :=
          match r with
          | '+' :: rr => (1, rr)
          | '-' :: rr => (-1, rr)
          | _ => (1, r)
        let ds := se.2.takeWhile Char.isDigit
        let r3 := se.2.dropWhile Char.isDigit
        if ds = [] ∨ r3 ≠ [] then none
        else some (b * (10 : ℚ) ^ (se.1 * (natOfDigitsCh ds : Int)))
      else none

/-- Python `float(s)` on an already-stripped string: optional sign, then
`digits[.digits]` or `.digits`, then optional exponent.  (`"nan"`/`"inf"`
are outside the rational model and treated as unparseable.) -/
def pf (cs : List Char) : Option ℚ :=
  let sc : ℚ × List Char :=
    match cs with
    | '+' :: r => (1, r)
    | '-' :: r => (-1, r)
    | _ => (1, cs)
  let ip := sc.2.takeWhile Char.isDigit
  let cs1 := sc.2.dropWhile Char.isDigit
  match cs1 with
  | '.' :: r =>
      let fp := r.takeWhile Char.isDigit
      let cs2 := r.dropWhile Char.isDigit
      if ip = [] ∧ fp = [] then none
      else expPart (sc.1 * (natOfDigitsCh ip + natOfDigitsCh fp / (10 : ℚ) ^ fp.length)) cs2
  | _ =>
      if ip = [] then none
      else expPart (sc.1 * natOfDigitsCh ip) cs1

/-- Python `str(x)` for a DataFrame cell.  NaN stringifies to `"nan"`.  For float
cells the exact repr text is irrelevant to every theorem below (it is never
empty, never a recognized direction token, never a parseable date), so a
simple `num.den` rendering stands in for Python's float repr. -/
def cellStr : Cell → String
  | .nan => "nan"
  | .str s => s
  | .num q => toString q.num ++ "." ++ toString q.den
  | .date d => dateStr d

/-- Embeds `app/main.py` `_safe_float`: NaN → 0.0; else strip commas and whitespace
from `str(x)`; empty → 0.0; unparseable → 0.0 (exception swallowed).
A float cell round-trips through `str`/`float` to itself; `str(date)` never
parses as a float. -/
def _safe_float (x : Cell) : ℚ :=
  match x with
  | .nan => 0
  | .num q => q
  | .date _ => 0
  | .str s =>
      let s2 := stripL (s.data.filter (fun c => c ≠ ','))
      if s2 = [] then 0 else (pf s2).getD 0

/-- Embeds `app/main.py` `_normalize_direction`: recognized credit/debit tokens,
with unrecognized input defaulting to `"debit"`. -/
def _normalize_direction (v : String) : String :=
  let s := lowerStr (stripStr v)
  if s ∈ ["credit", "cr", "c", "in", "inflow", "income"] then "credit"
  else if s ∈ ["debit", "dr", "d", "out", "outflow", "expense"] then "debit"
  else "debit"

/-- Number of days in a month (Gregorian, with leap years). -/
def daysInMonth (y m : Nat) : Nat :=
  if m = 2 then (if (y % 4 = 0 ∧ y % 100 ≠ 0) ∨ y % 400 = 0 then 29 else 28)
  else if m ∈ [1, 3, 5, 7, 8, 10, 12] then 31 else 30

/-- A directive like `%m`: a run of 1–`k` digits. -/
def digitsLe? (k : Nat) (s : String) : Option Nat :=
  if s.data ≠ [] ∧ s.data.all Char.isDigit ∧ s.data.length ≤ k then
    some (natOfDigitsCh s.data)
  else none

/-- Range-validated date construction (as `datetime.strptime` validates). -/
def mkDate? (y m d : Nat) : Option SDate :=
  if 1 ≤ m ∧ m ≤ 12 ∧ 1 ≤ d ∧ d ≤ daysInMonth y m then some ⟨y, m, d⟩ else none

/-- Python `str.split(sep)` for a one-character separator, on char lists
(empty fields kept). -/
def splitOnCh (sep : Char) : List Char → List (List Char)
  | [] => [[]]
  | c :: cs =>
      if c = sep then [] :: splitOnCh sep cs
      else
        match splitOnCh sep cs with
        | w :: ws => (c :: w) :: ws
        | [] => [[c]]

/-- Split into exactly three fields on a separator. -/
def split3? (s : String) (sep : Char) : Option (String × String × String) :=
  match splitOnCh sep s.data with
  | [a, b, c] => some (⟨a⟩, ⟨b⟩, ⟨c⟩)
  | _ => none

/-- Models `strptime` with format `%Y<sep>%m<sep>%d`. -/
def fmtYMD (sep : Char) (s : String) : Option SDate := do
  let (a, b, c) ← split3? s sep
  let y ← digitsLe? 4 a
  let m ← digitsLe? 2 b
  let d ← digitsLe? 2 c
  mkDate? y m d

/-- Models `strptime` with format `%d<sep>%m<sep>%Y`. -/
def fmtDMY (sep : Char) (s : String) : Option SDate := do
  let (a, b, c) ← split3? s sep
  let d ← digitsLe? 2 a
  let m ← digitsLe? 2 b
  let y ← digitsLe? 4 c
  mkDate? y m d

/-- Models `strptime` with format `%m<sep>%d<sep>%Y`. -/
def fmtMDY (sep : Char) (s : String) : Option SDate := do
  let (a, b, c) ← split3? s sep
  let m ← digitsLe? 2 a
  let d ← digitsLe? 2 b
  let y ← digitsLe? 4 c
  mkDate? y m d

/-- Conservative model of the `pandas.to_datetime` fallback parser: it
recognizes `YYYY/MM/DD`; all other inputs are treated as unparseable.
Theorems only evaluate it on strings the real parser also rejects. -/
def pdToDatetime? (s : String) : Option SDate := fmtYMD '/' s

/-- Embeds `app/main.py` `_parse_date_any`: a `date` object passes through; else
`str(v).strip()` is tried against `%Y-%m-%d`, `%d/%m/%Y`, `%d-%m-%Y`,
`%m/%d/%Y` in order, then the pandas fallback; failure raises
an `Invalid date` message carrying the raw value. -/
def _parse_date_any (x : Cell) : Except String SDate :=
  match x with
  | .date d => .ok d
  | _ =>
      let s := stripStr (cellStr x)
      match fmtYMD '-' s <|> fmtDMY '/' s <|> fmtDMY '-' s <|> fmtMDY '/' s <|> pdToDatetime? s with
      | some d => .ok d
      | none => .error ("Invalid date: " ++ cellStr x)

/-- The canonical transaction record produced by normalization. -/
structure Txn where
  txn_date : SDate
  description : String
  category : String
  direction : String
  amount : ℚ
deriving DecidableEq, Repr

/-- Row-wise `Series.apply` of a fallible function: the first exception
aborts the whole column (as `df[col].apply(_parse_date_any)` does). -/
def mapME (g : α → Except ε β) : List α → Except ε (List β)
  | [] => .ok []
  | a :: as_ =>
      match g a, mapME g as_ with
      | .ok b, .ok bs => .ok (b :: bs)
      | .error e, _ => .error e
      | .ok _, .error e => .error e

/-- Embeds `app/main.py` `normalize_transactions` line 147: the header dict
built from lowered, stripped header names (a duplicate normalized key
keeps the last column), followed by `pick(*names)`: the first name present
among the keys wins. -/
def pickMain (f : Frame) (names : List String) : Option String :=
  names.findSome? (fun n => (f.cols.reverse).find? (fun c => stripStr (lowerStr c) == n))

/-- Aliases tried for the date column (`main.py` line 155). -/
def dateAliases : List String := ["date", "txn_date", "transaction_date", "value_date"]

/-- Aliases tried for the description column (`main.py` line 156). -/
def descAliases : List String :=
  ["description", "narration", "particulars", "details", "remark", "remarks"]

/-- Aliases tried for the category column (`main.py` line 157). -/
def catAliases : List String := ["category", "cat", "type"]

/-- Aliases tried for the direction column (`main.py` line 158). -/
def dirAliases : List String := ["direction", "drcr", "dr_cr", "credit_debit"]

/-- Aliases tried for the amount column (`main.py` line 159). -/
def amtAliases : List String := ["amount", "amt", "value", "transaction_amount"]

/-- Look up the cell of row `r` under column name `c`. -/
def cellAt (f : Frame) (r : List Cell) (c : String) : Cell :=
  match f.cols.findIdx? (fun x => x == c) with
  | some i => r.getD i .nan
  | none => .nan

/-- One output row of `normalize_transactions` (`main.py` lines 167–187),
given the already-parsed date.  Every pandas Series operation in the source
is elementwise, so the column pipeline is presented per row:
 - description: `astype(str)` of the detected column, or `""` (line 169);
 - category: `astype(str).str.lower().fillna("")`, or `""` (line 170);
 - direction/amount: explicit direction column normalized via
   `_normalize_direction` (lines 172–174), else sign of `_safe_float`
   (`>= 0 → credit`) with absolute value stored (lines 175–178);
 - empty category defaults from direction (lines 180–181);
 - final strip/slice/lower cleanup (lines 183–185). -/
def rowTxn (cDesc cCat cDir : Option String) (cAmt : String) (f : Frame)
    (d : SDate) (r : List Cell) : Txn :=
  let desc0 : String :=
    match cDesc with
    | some c => cellStr (cellAt f r c)
    | none => ""
  let cat0 : String :=
    match cCat with
    | some c => lowerStr (cellStr (cellAt f r c))
    | none => ""
  let dir0 : String :=
    match cDir with
    | some c => _normalize_direction (cellStr (cellAt f r c))
    | none => if 0 ≤ _safe_float (cellAt f r cAmt) then "credit" else "debit"
  let amt : ℚ := |_safe_float (cellAt f r cAmt)|
  let cat1 : String :=
    if cat0 = "" ∧ dir0 = "credit" then "revenue"
    else if cat0 = "" ∧ dir0 = "debit" then "expense"
    else cat0
  { txn_date := d
    description := sliceStr (stripStr desc0) 255
    category := sliceStr (stripStr cat1) 64
    direction := lowerStr (stripStr dir0)
    amount := amt }

/-- Embeds `app/main.py` `normalize_transactions` (lines 138–187): empty frame →
empty output; missing date or amount column → HTTP 400; any row whose date
fails `_parse_date_any` aborts the whole call; otherwise one canonical
transaction per input row. -/
def normalize_transactions (f : Frame) : Except String (List Txn) :=
  if f.rows = [] ∨ f.cols = [] then .ok []
  else
    match pickMain f dateAliases, pickMain f amtAliases with
    | some cd, some ca =>
        (mapME (fun r => _parse_date_any (cellAt f r cd)) f.rows).map
          (fun dates =>
            List.zipWith
              (rowTxn (pickMain f descAliases) (pickMain f catAliases)
                (pickMain f dirAliases) ca f)
              dates f.rows)
    | _, _ =>
        .error "CSV/XLSX must contain at least: date, amount (optional description/category/direction)."

/-- The category value detected for a row before the direction-based default
(`main.py` line 170). -/
def detectedCat (f : Frame) (r : List Cell) : String :=
  match pickMain f catAliases with
  | some c => lowerStr (cellStr (cellAt f r c))
  | none => ""

/-! ### Metrics engine (`app/main.py` `/kpis`, `/kpis/monthly`, `/score`) -/

/-- Tests `(t.direction or "").lower() == "credit"`. -/
def isCreditT (t : Txn) : Bool := lowerStr t.direction == "credit"

/-- Tests `(t.direction or "").lower() == "debit"`. -/
def isDebitT (t : Txn) : Bool := lowerStr t.direction == "debit"

/-- Revenue filter of the KPI formulas: category `revenue` and direction
`credit` (`main.py` line 435). -/
def isRevT (t : Txn) : Bool := lowerStr t.category == "revenue" && isCreditT t

/-- Sum of the `amount` fields. -/
def amountSum (l : List Txn) : ℚ := (l.map Txn.amount).sum

/-- Embeds `inflow` (`main.py` line 433). -/
def total_inflow (txns : List Txn) : ℚ := amountSum (txns.filter isCreditT)

/-- Embeds `outflow` (`main.py` line 434). -/
def total_outflow (txns : List Txn) : ℚ := amountSum (txns.filter isDebitT)

/-- Embeds `revenue` (`main.py` line 435). -/
def total_revenue (txns : List Txn) : ℚ := amountSum (txns.filter isRevT)

/-- Embeds `expenses`: all debits (`main.py` line 436). -/
def total_expenses (txns : List Txn) : ℚ := amountSum (txns.filter isDebitT)

/-- Embeds `net_cashflow = inflow - outflow` (`main.py` line 438). -/
def net_cashflow (txns : List Txn) : ℚ := total_inflow txns - total_outflow txns

/-- Embeds `profit_simple = revenue - expenses` (`main.py` line 439). -/
def profit_simple (txns : List Txn) : ℚ := total_revenue txns - total_expenses txns

/-- Python's `round(x, 2)` rounds half to even on the second decimal;
integer part of the round. -/
def roundHalfEven (q : ℚ) : ℤ :=
  let n := ⌊q⌋
  let r := q - n
  if r < 1 / 2 then n
  else if 1 / 2 < r then n + 1
  else if n % 2 = 0 then n else n + 1

/-- Python `round(x, 2)` as exact decimal rounding. -/
def round2 (q : ℚ) : ℚ := (roundHalfEven (q * 100) : ℚ) / 100

/-- Embeds the `strftime` month key of a transaction date, the monthly bucket key
(`main.py` line 468). -/
def monthKeyT (t : Txn) : String := ymStr t.txn_date.year t.txn_date.month

/-- Lexicographic comparison of char sequences by code point (the order
Python string comparison uses). -/
def lexLe : List Char → List Char → Bool
  | [], _ => true
  | _ :: _, [] => false
  | a :: as_, b :: bs =>
      if a.toNat < b.toNat then true
      else if a.toNat = b.toNat then lexLe as_ bs
      else false

/-- Compares `a <= b` on Python strings. -/
def strLeB (a b : String) : Bool := lexLe a.data b.data

/-- Insert into a sorted list of strings (ascending). -/
def insSorted (a : String) : List String → List String
  | [] => [a]
  | b :: l => if strLeB a b then a :: b :: l else b :: insSorted a l

/-- Python `sorted(...)` on strings, as a structurally recursive insertion sort. -/
def sortStr (l : List String) : List String := l.foldr insSorted []

/-- The emitted monthly bucket keys: one per distinct month with at least
one transaction, in ascending order (`main.py` line 478). -/
def monthsOf (txns : List Txn) : List String :=
  sortStr ((txns.map monthKeyT).dedup)

/-- Revenue of one monthly bucket (`main.py` lines 472–473): amounts of
transactions in month `m` with direction credit and category revenue. -/
def monthlyRevenue (txns : List Txn) (m : String) : ℚ :=
  amountSum (txns.filter (fun t => monthKeyT t == m && isRevT t))

/-- Expenses of one monthly bucket (`main.py` lines 474–475): amounts of
transactions in month `m` with direction debit. -/
def monthlyExpenses (txns : List Txn) (m : String) : ℚ :=
  amountSum (txns.filter (fun t => monthKeyT t == m && isDebitT t))

/-- The four boolean-gated score components (`main.py` lines 504–508):
`+30/+10`, `+30/+10`, `+20/+10`, `+20/+5`. -/
def scoreOf (b1 b2 b3 b4 : Bool) : Nat :=
  (if b1 then 30 else 10) + (if b2 then 30 else 10) +
    (if b3 then 20 else 10) + (if b4 then 20 else 5)

/-- Embeds the `/score` endpoint (`main.py` lines 485–511): 0 for an empty batch, else the four
components gated on positive net cashflow, positive profit, `len(txns) >= 20`
and positive revenue. -/
def health_score (txns : List Txn) : Nat :=
  if txns = [] then 0
  else
    scoreOf (decide (0 < net_cashflow txns)) (decide (0 < profit_simple txns))
      (decide (20 ≤ txns.length)) (decide (0 < total_revenue txns))

/-! ### Forecast (`app/main.py` `_add_months_ym`, `/forecast`) -/

/-- Embeds `app/main.py` `_add_months_ym` (lines 116–123): split `"YYYY-MM"`,
convert to a linear month index, add, and re-split with Python floor
division/modulo (only ever called on well-formed `YYYY-MM` keys). -/
def _add_months_ym (ym : String) (add : Int) : String :=
  match splitOnCh '-' ym.data with
  | [ys, ms] =>
      let y : Int := (natOfDigitsCh ys : Nat)
      let m : Int := (natOfDigitsCh ms : Nat)
      let idx : Int := y * 12 + (m - 1) + add
      ymStr (Int.fdiv idx 12).toNat ((Int.fmod idx 12).toNat + 1)
  | _ => ym

/-- One element of the `/kpis/monthly` series as consumed by `/forecast`. -/
structure MonthKpi where
  month : String
  revenue : ℚ
  profit_simple : ℚ
deriving DecidableEq, Repr

/-- One element of the emitted forecast list. -/
structure ForecastRow where
  month : String
  forecast_revenue : ℚ
  forecast_net_cashflow : ℚ
deriving DecidableEq, Repr

/-- Embeds `monthly[-3:] if len(monthly) >= 3 else monthly` (`main.py` line 586). -/
def lastN (monthly : List MonthKpi) : List MonthKpi :=
  if 3 ≤ monthly.length then monthly.drop (monthly.length - 3) else monthly

/-- Embeds `avg_rev` (`main.py` line 587). -/
def avgRevenue (monthly : List MonthKpi) : ℚ :=
  ((lastN monthly).map MonthKpi.revenue).sum / ((lastN monthly).length : ℚ)

/-- Embeds `avg_profit` (`main.py` line 588). -/
def avgProfit (monthly : List MonthKpi) : ℚ :=
  ((lastN monthly).map MonthKpi.profit_simple).sum / ((lastN monthly).length : ℚ)

/-- The forecast list built by `/forecast` (`main.py` lines 582–596) from a
monthly series: empty input short-circuits; else the trailing up-to-3-month
averages are emitted flat for `range(1, months+1)` future month keys
starting after `monthly[-1]["month"]`. -/
def forecastList (monthly : List MonthKpi) (months : Nat) : List ForecastRow :=
  if monthly = [] then []
  else
    (List.range months).map (fun (i : Nat) =>
      { month := _add_months_ym (((monthly.getLast?).map MonthKpi.month).getD "") ((i : Int) + 1)
        forecast_revenue := round2 (avgRevenue monthly)
        forecast_net_cashflow := round2 (avgProfit monthly) })

/-! ### Field detection (`app/utils.py` `COLUMN_ALIASES`, `_find_col`) -/

/-- Python `str(c).strip().lower()`, the header normalization of `_find_col`. -/
def findColNorm (c : String) : String := lowerStr (stripStr c)

/-- Embeds `app/utils.py` `_find_col` (lines 13–18): build
the normalized-header dict over the columns (a duplicate normalized key
keeps the last column) and return the entry of the first candidate alias
whose lowered form is a key. -/
def _find_col (cols : List String) (candidates : List String) : Option String :=
  candidates.findSome? (fun key => (cols.reverse).find? (fun c => findColNorm c == lowerStr key))

/-- Embeds `COLUMN_ALIASES` for the date role (`utils.py` line 5). -/
def colAliasesDate : List String :=
  ["date", "txn_date", "transaction_date", "value_date", "posting_date"]

/-- Embeds `COLUMN_ALIASES` for the amount role (`utils.py` line 7). -/
def colAliasesAmount : List String := ["amount", "amt", "transaction_amount"]

/-- Models `pd.to_numeric` with coercion and `fillna(0)` on one cell
(`utils.py` line 62): numbers pass through, numeric strings parse, anything
else coerces to NaN and is filled with 0. -/
def pdToNumeric0 (x : Cell) : ℚ :=
  match x with
  | .num q => q
  | .str s => (pf (stripL s.data)).getD 0
  | _ => 0

/-- The direction column derived from a signed amount column in
`app/utils.py` `normalize_transactions` (line 63). -/
def utilsDirections (vals : List Cell) : List String :=
  (vals.map pdToNumeric0).map (fun x => if 0 ≤ x then "credit" else "debit")

/-- The absolute amount column derived from a signed amount column in
`app/utils.py` `normalize_transactions` (line 64). -/
def utilsAmounts (vals : List Cell) : List ℚ :=
  (vals.map pdToNumeric0).map (fun x => |x|)

/-! ### Bank-statement PDF text mode (`app/main.py` `parse_pdf_transactions_text`) -/

/-- Substring test on char lists (Python's `in` on strings). -/
def hasSubAux (n : List Char) : List Char → Bool
  | [] => n == []
  | c :: cs => n.isPrefixOf (c :: cs) || hasSubAux n cs

/-- Tests `needle in hay` for Python strings. -/
def hasSub (hay needle : String) : Bool := hasSubAux needle.data hay.data

/-- Direction inference for a candidate bank-statement line
(`main.py` lines 334–335): `"debit"` when the uppercased line contains the
substring `" DR"` or the substring `"DEBIT"`, else `"credit"`. -/
def inferDirection (line : String) : String :=
  if hasSub (upperStr line) " DR" || hasSub (upperStr line) "DEBIT" then "debit"
  else "credit"

/-- Python `str.split()` with no arguments: split on whitespace runs,
dropping empty fields.  `cur` accumulates the current word reversed. -/
def pySplitWsAux (cur : List Char) : List Char → List String
  | [] => if cur = [] then [] else [⟨cur.reverse⟩]
  | c :: cs =>
      if pyWs c then
        if cur = [] then pySplitWsAux [] cs else ⟨cur.reverse⟩ :: pySplitWsAux [] cs
      else pySplitWsAux (c :: cur) cs

/-- Python `str.split()` with no arguments. -/
def pySplitWs (s : String) : List String := pySplitWsAux [] s.data

/-! ### Invoice OCR total extraction (`app/routes_invoice_ocr.py` `_parse_total_amount`)

The Python function is regex-driven; the two regexes are transcribed as
deterministic matchers whose backtracking behavior coincides with `re` on
this pattern shape (each optional/starred element is followed by a literal
it cannot absorb). -/

/-- Python `text.replace` of commas by spaces (`routes_invoice_ocr.py` line 50). -/
def replCommas (cs : List Char) : List Char :=
  cs.map (fun c => if c = ',' then ' ' else c)

/-- Case-insensitive literal match (the label letters under `re.IGNORECASE`);
returns the rest of the input on success. -/
def matchCI : List Char → List Char → Option (List Char)
  | [], cs => some cs
  | l :: ls, c :: cs => if c.toLower = l then matchCI ls cs else none
  | _ :: _, [] => none

/-- The value of a matched decimal token `ds[.fs]` (at most two fraction
digits), counted in hundredths.  `float` of such a token is exactly this
count divided by 100, and comparing tokens by `float` is comparing these
counts, so the whole extraction can be computed on naturals. -/
def centsOf (ds fs : List Char) : Nat :=
  natOfDigitsCh ds * 100 + natOfDigitsCh fs * 10 ^ (2 - fs.length)

/-- Python `float` of a token held as hundredths. -/
def centsToQ (c : Nat) : ℚ := (c : ℚ) / 100

/-- Matches the amount capture group of the label regex: greedy digits with an optional 1–2 digit
fraction; the capture, in hundredths. -/
def readNum (cs : List Char) : Option Nat :=
  let ds := cs.takeWhile Char.isDigit
  if ds = [] then none
  else
    match cs.dropWhile Char.isDigit with
    | '.' :: r2 =>
        let fs := (r2.takeWhile Char.isDigit).take 2
        if fs = [] then some (centsOf ds [])
        else some (centsOf ds fs)
    | _ => some (centsOf ds [])

/-- Matches the optional separator, currency sign and whitespace tail followed by the number capture
(`routes_invoice_ocr.py` line 51). -/
def afterLabelNum (cs : List Char) : Option Nat :=
  let c1 := cs.dropWhile pyWs
  let c2 := match c1 with
    | c :: rest => if c = ':' ∨ c = '-' then rest else c1
    | [] => c1
  let c3 := c2.dropWhile pyWs
  let c4 := match c3 with
    | c :: rest => if c = '₹' then rest else c3
    | [] => c3
  readNum (c4.dropWhile pyWs)

/-- The alternation `(grand\s*total|total\s*amount|total)` tried at one
position, in pattern order, each continued by the amount tail. -/
def tryLabelAt (cs : List Char) : Option Nat :=
  (do
    let r ← matchCI "grand".data cs
    let r2 ← matchCI "total".data (r.dropWhile pyWs)
    afterLabelNum r2) <|>
  (do
    let r ← matchCI "total".data cs
    let r2 ← matchCI "amount".data (r.dropWhile pyWs)
    afterLabelNum r2) <|>
  (do
    let r ← matchCI "total".data cs
    afterLabelNum r)

/-- Models `re.search` of the labelled-total pattern: leftmost position wins. -/
def searchLabel : List Char → Option Nat
  | [] => none
  | c :: rest => tryLabelAt (c :: rest) <|> searchLabel rest

/-- Python `\w` (ASCII model). -/
def isWordChar (c : Char) : Bool := c.isAlphanum || c = '_'

/-- Holds when a token that just ended in a digit sits at a word boundary. -/
def tokenEnd (rest : List Char) : Bool :=
  match rest with
  | [] => true
  | c :: _ => !isWordChar c

/-- Try to finish one fallback amount token (at least three integer digits, optional 1–2 digit fraction, word boundaries) after
its integer digit run: the greedy 2-digit fraction, then the 1-digit
fraction, then the bare integer (whose following `.` is already a boundary);
`none` when a word character follows the digits directly. -/
def numToken (run rest : List Char) : Option (Nat × List Char) :=
  match rest with
  | '.' :: r2 =>
      let fs := r2.takeWhile Char.isDigit
      if 2 ≤ fs.length ∧ tokenEnd (r2.drop 2) then
        some (centsOf run (fs.take 2), r2.drop 2)
      else if 1 ≤ fs.length ∧ tokenEnd (r2.drop 1) then
        some (centsOf run (fs.take 1), r2.drop 1)
      else some (centsOf run [], rest)
  | _ => if tokenEnd rest then some (centsOf run [], rest) else none

/-- Models `re.findall` of the fallback amount token pattern as a left-to-right
scan.  The Bool argument records whether the previous character was a word
character (`\b` needs a non-word/none before the digits).  Fuel-indexed;
each step consumes at least one character, so `cs.length` fuel suffices. -/
def scanTokensF : Nat → Bool → List Char → List Nat
  | 0, _, _ => []
  | _ + 1, _, [] => []
  | n + 1, prevW, c :: cs =>
      if !prevW && c.isDigit then
        let run := (c :: cs).takeWhile Char.isDigit
        let rest := (c :: cs).dropWhile Char.isDigit
        if 3 ≤ run.length then
          match numToken run rest with
          | some (q, rest2) => q :: scanTokensF n true rest2
          | none => scanTokensF n true rest
        else scanTokensF n true rest
      else scanTokensF n (isWordChar c) cs

/-- All fallback amount tokens of the document. -/
def findallAmts (t : List Char) : List Nat := scanTokensF t.length false t

/-- Python `max(nums, key=float)`: first maximum wins (replacement only on a
strictly greater value); `None` on an empty list. -/
def maxByFirst : List Nat → Option Nat
  | [] => none
  | x :: xs => some (xs.foldl (fun b y => if b < y then y else b) x)

/-- Embeds `app/routes_invoice_ocr.py` `_parse_total_amount` (lines 47–61):
replace commas by spaces; prefer the first labelled-total match; else the
largest ≥3-digit numeric token; else `None`. -/
def _parse_total_amount (text : String) : Option ℚ :=
  let t := replCommas text.data
  match searchLabel t with
  | some c => some (centsToQ c)
  | none => (maxByFirst (findallAmts t)).map centsToQ

/-- Success test for `Except` (a raised exception propagates as `.error`). -/
def isOkE : Except ε α → Bool
  | .ok _ => true
  | .error _ => false

/-! ### List summation helpers -/

lemma sum_map_add {α : Type} (l : List α) (g h : α → ℚ) :
    (l.map (fun x => g x + h x)).sum = (l.map g).sum + (l.map h).sum := by
  induction l with
  | nil => simp
  | cons a l ih => simp only [List.map_cons, List.sum_cons, ih]; ring

lemma sum_if_not_mem (a : String) (c : ℚ) (K : List String) (h : a ∉ K) :
    (K.map (fun m => if a = m then c else 0)).sum = 0 := by
  induction K with
  | nil => simp
  | cons k K ih =>
      simp only [List.map_cons, List.sum_cons]
      rw [if_neg (by rintro rfl; exact h (List.mem_cons_self _ _)),
        ih (fun hm => h (List.mem_cons_of_mem _ hm))]
      simp

lemma sum_if_single (a : String) (c : ℚ) (K : List String) (hnd : K.Nodup) (hm : a ∈ K) :
    (K.map (fun m => if a = m then c else 0)).sum = c := by
  induction K with
  | nil => cases hm
  | cons k K ih =>
      simp only [List.map_cons, List.sum_cons]
      rcases List.mem_cons.mp hm with rfl | hm2
      · rw [if_pos rfl, sum_if_not_mem a c K (List.nodup_cons.mp hnd).1]; simp
      · have hk : a ≠ k := by rintro rfl; exact (List.nodup_cons.mp hnd).1 hm2
        rw [if_neg hk, ih (List.nodup_cons.mp hnd).2 hm2]; simp

lemma amountSum_cons (t : Txn) (l : List Txn) :
    amountSum (t :: l) = t.amount + amountSum l := by
  simp [amountSum]

/-- Fiberwise decomposition of a filtered amount sum over any duplicate-free
key list covering the batch: the bucket sums re-aggregate to the total. -/
lemma bucket_partition (p : Txn → Bool) (K : List String) (l : List Txn)
    (hnd : K.Nodup) (hcov : ∀ t ∈ l, monthKeyT t ∈ K) :
    (K.map (fun m => amountSum (l.filter (fun t => monthKeyT t == m && p t)))).sum
      = amountSum (l.filter p) := by
  induction l with
  | nil => simp [amountSum]
  | cons t l ih =>
      have hK : monthKeyT t ∈ K := hcov t (List.mem_cons_self _ _)
      have hcov2 : ∀ x ∈ l, monthKeyT x ∈ K := fun x hx => hcov x (List.mem_cons_of_mem _ hx)
      have hsplit : ∀ m : String,
          amountSum ((t :: l).filter (fun x => monthKeyT x == m && p x))
            = (if monthKeyT t = m then (if p t = true then t.amount else 0) else 0)
              + amountSum (l.filter (fun x => monthKeyT x == m && p x)) := by
        intro m
        rw [List.filter_cons]
        by_cases h1 : monthKeyT t = m
        · by_cases h2 : p t = true
          · rw [if_pos (by simp [h1, h2]), amountSum_cons, if_pos h1, if_pos h2]
          · rw [if_neg (by simp [h2]), if_pos h1, if_neg h2]; ring
        · rw [if_neg (by simp [h1]), if_neg h1]; ring
      calc (K.map (fun m => amountSum ((t :: l).filter (fun x => monthKeyT x == m && p x)))).sum
          = (K.map (fun m =>
              (if monthKeyT t = m then (if p t = true then t.amount else 0) else 0)
                + amountSum (l.filter (fun x => monthKeyT x == m && p x)))).sum := by
            exact congrArg List.sum (List.map_congr_left (fun m _ => hsplit m))
        _ = (K.map (fun m => if monthKeyT t = m then (if p t = true then t.amount else 0) else 0)).sum
            + (K.map (fun m => amountSum (l.filter (fun x => monthKeyT x == m && p x)))).sum :=
            sum_map_add K _ _
        _ = amountSum ((t :: l).filter p) := by
            rw [sum_if_single (monthKeyT t) _ K hnd hK, ih hcov2, List.filter_cons]
            by_cases h2 : p t = true
            · rw [if_pos h2, if_pos h2, amountSum_cons]
            · rw [if_neg h2, if_neg h2]; ring

lemma insSorted_perm (a : String) (l : List String) : (insSorted a l).Perm (a :: l) := by
  induction l with
  | nil => exact List.Perm.refl _
  | cons b l ih =>
      rw [insSorted]
      by_cases h : strLeB a b = true
      · rw [if_pos h]
      · rw [if_neg h]
        exact (ih.cons b).trans (List.Perm.swap a b l)

lemma sortStr_perm (l : List String) : (sortStr l).Perm l := by
  induction l with
  | nil => exact List.Perm.refl _
  | cons a l ih => exact (insSorted_perm a (sortStr l)).trans (ih.cons a)

lemma monthsOf_nodup (txns : List Txn) : (monthsOf txns).Nodup :=
  ((sortStr_perm _).nodup_iff).mpr (List.nodup_dedup _)

lemma monthsOf_cover (txns : List Txn) : ∀ t ∈ txns, monthKeyT t ∈ monthsOf txns :=
  fun _ ht =>
    ((sortStr_perm _).mem_iff).mpr (List.mem_dedup.mpr (List.mem_map_of_mem _ ht))

/-- A rational that is a whole number of cents. -/
def IsCents (q : ℚ) : Prop := ∃ n : ℤ, q = (n : ℚ) / 100

lemma isCents_add {a b : ℚ} (ha : IsCents a) (hb : IsCents b) : IsCents (a + b) := by
  rcases ha with ⟨n, rfl⟩; rcases hb with ⟨m, rfl⟩
  exact ⟨n + m, by push_cast; ring⟩

lemma isCents_amountSum (l : List Txn) (h : ∀ t ∈ l, IsCents t.amount) :
    IsCents (amountSum l) := by
  induction l with
  | nil => exact ⟨0, by simp [amountSum]⟩
  | cons t l ih =>
      rw [amountSum_cons]
      exact isCents_add (h t (List.mem_cons_self _ _))
        (ih (fun x hx => h x (List.mem_cons_of_mem _ hx)))

lemma round2_cents {q : ℚ} (h : IsCents q) : round2 q = q := by
  rcases h with ⟨n, rfl⟩
  have h1 : ((n : ℚ) / 100) * 100 = (n : ℚ) := by field_simp
  simp only [round2, roundHalfEven, h1, Int.floor_intCast, sub_self]
  norm_num

/-- Evaluates `round(x, 2)` when the scaled value sits strictly inside the
lower half of a unit interval. -/
lemma round2_eq_of_floor_lt {q : ℚ} {n : ℤ} (hf : ⌊q * 100⌋ = n)
    (hlt : q * 100 - n < 1 / 2) : round2 q = (n : ℚ) / 100 := by
  simp only [round2, roundHalfEven, hf, if_pos hlt]

/-- Evaluates `round(x, 2)` when the scaled value sits strictly inside the
upper half of a unit interval. -/
lemma round2_eq_of_half_lt {q : ℚ} {n : ℤ} (hf : ⌊q * 100⌋ = n)
    (hgt : 1 / 2 < q * 100 - n) : round2 q = ((n : ℚ) + 1) / 100 := by
  simp only [round2, roundHalfEven, hf, if_neg (by linarith : ¬ q * 100 - (n : ℚ) < 1 / 2),
    if_pos hgt]
  push_cast
  ring_nf

/-! ### Claim C4 -/

/-- A 0.004 revenue transaction in January 2024. -/
def cxT1 : Txn := ⟨⟨2024, 1, 5⟩, "", "revenue", "credit", 1 / 250⟩

/-- A 0.004 revenue transaction in February 2024. -/
def cxT2 : Txn := ⟨⟨2024, 2, 5⟩, "", "revenue", "credit", 1 / 250⟩

/-- Two revenue transactions of 0.004 in different months: each monthly
bucket rounds to 0.00 but the aggregate rounds to 0.01. -/
def cxBatchC4 : List Txn := [cxT1, cxT2]

/-- C4, counterexample: with the 2-decimal rounding that `/kpis/monthly` and
`/kpis` apply to every emitted value, summing the emitted per-month revenue
(0.00 + 0.00) does not reproduce the emitted aggregate total revenue (0.01)
for a batch of two 0.004 revenue transactions in different months. -/
theorem spec_C4_counterexample :
    ((monthsOf cxBatchC4).map (fun m => round2 (monthlyRevenue cxBatchC4 m))).sum = 0 ∧
    round2 (total_revenue cxBatchC4) = 1 / 100 ∧ (0 : ℚ) ≠ 1 / 100 := by
  have hm : monthsOf cxBatchC4 = ["2024-01", "2024-02"] := by decide
  have hf1 : cxBatchC4.filter (fun t => monthKeyT t == "2024-01" && isRevT t) = [cxT1] := by
    simp only [cxBatchC4]
    rw [List.filter_cons, if_pos (by decide), List.filter_cons, if_neg (by decide),
      List.filter_nil]
  have hf2 : cxBatchC4.filter (fun t => monthKeyT t == "2024-02" && isRevT t) = [cxT2] := by
    simp only [cxBatchC4]
    rw [List.filter_cons, if_neg (by decide), List.filter_cons, if_pos (by decide),
      List.filter_nil]
  have hv1 : monthlyRevenue cxBatchC4 "2024-01" = 1 / 250 := by
    simp only [monthlyRevenue, hf1, amountSum, List.map_cons, List.map_nil, List.sum_cons,
      List.sum_nil, cxT1, add_zero]
  have hv2 : monthlyRevenue cxBatchC4 "2024-02" = 1 / 250 := by
    simp only [monthlyRevenue, hf2, amountSum, List.map_cons, List.map_nil, List.sum_cons,
      List.sum_nil, cxT2, add_zero]
  have hr : round2 ((1 : ℚ) / 250) = 0 := by
    have hs : ((1 : ℚ) / 250) * 100 = 2 / 5 := by norm_num
    have hf : ⌊((1 : ℚ) / 250) * 100⌋ = 0 := by rw [hs]; norm_num [Int.floor_eq_iff]
    rw [round2_eq_of_floor_lt hf (by rw [hs]; norm_num)]
    norm_num
  have hft : cxBatchC4.filter isRevT = [cxT1, cxT2] := by
    simp only [cxBatchC4]
    rw [List.filter_cons, if_pos (by decide), List.filter_cons, if_pos (by decide),
      List.filter_nil]
  have hvt : total_revenue cxBatchC4 = 1 / 125 := by
    simp only [total_revenue, hft, amountSum, List.map_cons, List.map_nil, List.sum_cons,
      List.sum_nil, cxT1, cxT2, add_zero]
    norm_num
  have hrt : round2 ((1 : ℚ) / 125) = 1 / 100 := by
    have hs : ((1 : ℚ) / 125) * 100 = 4 / 5 := by norm_num
    have hf : ⌊((1 : ℚ) / 125) * 100⌋ = 0 := by rw [hs]; norm_num [Int.floor_eq_iff]
    rw [round2_eq_of_half_lt hf (by rw [hs]; norm_num)]
    norm_num
  refine ⟨?_, ?_, by norm_num⟩
  · rw [hm]
    simp only [List.map_cons, List.map_nil, List.sum_cons, List.sum_nil, hv1, hv2, hr, add_zero]
  · rw [hvt, hrt]

/-- C4, amended: for every canonical transaction batch, summing the
pre-rounding per-month revenue over all emitted monthly buckets equals the
pre-rounding aggregate total revenue, and likewise for expenses; with the
final 2-decimal rounding included, the same equalities hold whenever every
amount is a whole number of cents. -/
theorem spec_C4_amended (txns : List Txn) :
    ((monthsOf txns).map (monthlyRevenue txns)).sum = total_revenue txns ∧
    ((monthsOf txns).map (monthlyExpenses txns)).sum = total_expenses txns ∧
    ((∀ t ∈ txns, IsCents t.amount) →
      ((monthsOf txns).map (fun m => round2 (monthlyRevenue txns m))).sum
          = round2 (total_revenue txns) ∧
      ((monthsOf txns).map (fun m => round2 (monthlyExpenses txns m))).sum
          = round2 (total_expenses txns)) := by
  have hrev : ((monthsOf txns).map (monthlyRevenue txns)).sum = total_revenue txns :=
    bucket_partition isRevT (monthsOf txns) txns (monthsOf_nodup txns) (monthsOf_cover txns)
  have hexp : ((monthsOf txns).map (monthlyExpenses txns)).sum = total_expenses txns :=
    bucket_partition isDebitT (monthsOf txns) txns (monthsOf_nodup txns) (monthsOf_cover txns)
  refine ⟨hrev, hexp, fun hc => ?_⟩
  have hcRev : ∀ m, IsCents (monthlyRevenue txns m) := fun m =>
    isCents_amountSum _ (fun t ht => hc t (List.mem_of_mem_filter ht))
  have hcExp : ∀ m, IsCents (monthlyExpenses txns m) := fun m =>
    isCents_amountSum _ (fun t ht => hc t (List.mem_of_mem_filter ht))
  have hcTotR : IsCents (total_revenue txns) :=
    isCents_amountSum _ (fun t ht => hc t (List.mem_of_mem_filter ht))
  have hcTotE : IsCents (total_expenses txns) :=
    isCents_amountSum _ (fun t ht => hc t (List.mem_of_mem_filter ht))
  constructor
  · rw [List.map_congr_left (fun m _ => round2_cents (hcRev m)), hrev, round2_cents hcTotR]
  · rw [List.map_congr_left (fun m _ => round2_cents (hcExp m)), hexp, round2_cents hcTotE]

/-- A concrete whole-cent batch for instantiating C4's rounded clause. -/
def wBatchC4 : List Txn :=
  [⟨⟨2024, 1, 5⟩, "", "revenue", "credit", 50⟩,
   ⟨⟨2024, 2, 7⟩, "rent", "expense", "debit", 2525 / 100⟩]

/-- C4 witness: the amended theorem instantiated on a concrete two-month
whole-cent batch. -/
theorem spec_C4_witness :
    ((monthsOf wBatchC4).map (fun m => round2 (monthlyRevenue wBatchC4 m))).sum
        = round2 (total_revenue wBatchC4) ∧
    ((monthsOf wBatchC4).map (fun m => round2 (monthlyExpenses wBatchC4 m))).sum
        = round2 (total_expenses wBatchC4) :=
  (spec_C4_amended wBatchC4).2.2 (by
    intro t ht
    rcases List.mem_cons.mp ht with rfl | ht2
    · exact ⟨5000, by norm_num⟩
    · rcases List.mem_cons.mp ht2 with rfl | ht3
      · exact ⟨2525, by norm_num⟩
      · cases ht3)

/-! ### Claim C5 -/

/-- C5: for every non-empty batch the health score is the additive
composition of the four boolean-gated components (+30/+10, +30/+10,
+20/+10, +20/+5), each component is monotone non-decreasing in its
predicate with the others fixed, and the score is at most 100. -/
theorem spec_C5 (txns : List Txn) (h : txns ≠ []) :
    health_score txns =
      scoreOf (decide (0 < net_cashflow txns)) (decide (0 < profit_simple txns))
        (decide (20 ≤ txns.length)) (decide (0 < total_revenue txns)) ∧
    (∀ b2 b3 b4, scoreOf false b2 b3 b4 ≤ scoreOf true b2 b3 b4) ∧
    (∀ b1 b3 b4, scoreOf b1 false b3 b4 ≤ scoreOf b1 true b3 b4) ∧
    (∀ b1 b2 b4, scoreOf b1 b2 false b4 ≤ scoreOf b1 b2 true b4) ∧
    (∀ b1 b2 b3, scoreOf b1 b2 b3 false ≤ scoreOf b1 b2 b3 true) ∧
    health_score txns ≤ 100 := by
  have hbound : ∀ b1 b2 b3 b4, scoreOf b1 b2 b3 b4 ≤ 100 := by decide
  refine ⟨by simp [health_score, h], by decide, by decide, by decide, by decide, ?_⟩
  simp only [health_score, if_neg h]
  exact hbound _ _ _ _

/-- A concrete non-empty batch for instantiating C5. -/
def wBatchC5 : List Txn := [⟨⟨2024, 1, 1⟩, "", "revenue", "credit", 100⟩]

/-- C5 witness: the score theorem instantiated on a concrete one-element
batch. -/
theorem spec_C5_witness :
    health_score wBatchC5 =
      scoreOf (decide (0 < net_cashflow wBatchC5)) (decide (0 < profit_simple wBatchC5))
        (decide (20 ≤ wBatchC5.length)) (decide (0 < total_revenue wBatchC5)) ∧
    health_score wBatchC5 ≤ 100 :=
  ⟨(spec_C5 wBatchC5 (by decide)).1, (spec_C5 wBatchC5 (by decide)).2.2.2.2.2⟩

/-! ### Claim C6 -/

lemma find?_eq_of_perm {α : Type} {p : α → Bool} {l l2 : List α} (h : l.Perm l2)
    (huniq : ∀ a ∈ l, ∀ b ∈ l, p a = true → p b = true → a = b) :
    l.find? p = l2.find? p := by
  cases hf : l.find? p with
  | none =>
      symm
      rw [List.find?_eq_none] at hf ⊢
      exact fun x hx => hf x (h.symm.subset hx)
  | some a =>
      have ha := List.find?_some hf
      have hmem := List.mem_of_find?_eq_some hf
      cases hf2 : l2.find? p with
      | none =>
          rw [List.find?_eq_none] at hf2
          exact absurd ha (hf2 a (h.subset hmem))
      | some b =>
          have hb := List.find?_some hf2
          have hbm : b ∈ l := h.symm.subset (List.mem_of_find?_eq_some hf2)
          rw [huniq a hmem b hbm ha hb]

lemma findSome?_congr {α β : Type} {f g : α → Option β} :
    ∀ (l : List α), (∀ a ∈ l, f a = g a) → l.findSome? f = l.findSome? g := by
  intro l
  induction l with
  | nil => intro _; rfl
  | cons a l ih =>
      intro h
      rw [List.findSome?_cons, List.findSome?_cons, h a (List.mem_cons_self _ _),
        ih (fun x hx => h x (List.mem_cons_of_mem _ hx))]

/-- C6, counterexample: two headers that differ only by case are a
permutation of each other, yet `_find_col` resolves the date role to a
different concrete column for each order (the later duplicate wins in the
normalized-header dict). -/
theorem spec_C6_counterexample :
    _find_col ["Date", "DATE"] colAliasesDate = some "DATE" ∧
    _find_col ["DATE", "Date"] colAliasesDate = some "Date" ∧
    List.Perm ["Date", "DATE"] ["DATE", "Date"] ∧ ("DATE" : String) ≠ "Date" :=
  ⟨by decide, by decide, List.Perm.swap "DATE" "Date" [], by decide⟩

/-- C6, amended: field detection is case-insensitive exact-token matching
with first-alias priority, and it is independent of source column order
whenever no two columns share the same normalized (trimmed, lower-cased)
token; with duplicate normalized tokens the later column wins, so order can
matter. -/
theorem spec_C6_amended (cols cols2 cands : List String)
    (hnd : (cols.map findColNorm).Nodup) (hperm : cols.Perm cols2) :
    _find_col cols cands = _find_col cols2 cands := by
  unfold _find_col
  apply findSome?_congr
  intro key _
  apply find?_eq_of_perm
  · exact ((cols.reverse_perm).trans hperm).trans cols2.reverse_perm.symm
  · intro a ha b hb hpa hpb
    have ha2 : a ∈ cols := cols.reverse_perm.subset ha
    have hb2 : b ∈ cols := cols.reverse_perm.subset hb
    exact List.inj_on_of_nodup_map hnd ha2 hb2
      ((beq_iff_eq.mp hpa).trans (beq_iff_eq.mp hpb).symm)

/-- C6 witness: the amended theorem instantiated on duplicate-free headers
and a concrete transposition. -/
theorem spec_C6_witness :
    _find_col ["Date", "Amount"] colAliasesDate = _find_col ["Amount", "Date"] colAliasesDate :=
  spec_C6_amended ["Date", "Amount"] ["Amount", "Date"] colAliasesDate (by decide)
    (List.Perm.swap "Amount" "Date" [])

/-! ### Claim C7 -/

/-- C7, counterexample: the candidate line `2024-01-02 BANK DRAFT 500` has
no separate `DR` token and no `DEBIT` substring, yet the code infers
`debit` (the substring `" DR"` of `" DRAFT"` matches); conversely a line
with a tab-separated `DR` token is inferred `credit`. -/
theorem spec_C7_counterexample :
    inferDirection "2024-01-02 BANK DRAFT 500" = "debit" ∧
    "DR" ∉ pySplitWs (upperStr "2024-01-02 BANK DRAFT 500") ∧
    hasSub (upperStr "2024-01-02 BANK DRAFT 500") "DEBIT" = false ∧
    inferDirection "2024-01-02\tDR 300" = "credit" ∧
    "DR" ∈ pySplitWs (upperStr "2024-01-02\tDR 300") := by
  refine ⟨by decide, by decide, by decide, by decide, by decide⟩

/-- C7, amended: a candidate line is inferred `debit` exactly when its
uppercased text contains the substring `" DR"` (a space followed by the
letters `DR`, regardless of what follows) or the substring `DEBIT`
anywhere; otherwise it is inferred `credit`. -/
theorem spec_C7_amended (line : String) :
    inferDirection line = "debit" ↔
      (hasSub (upperStr line) " DR" = true ∨ hasSub (upperStr line) "DEBIT" = true) := by
  unfold inferDirection
  by_cases h : (hasSub (upperStr line) " DR" || hasSub (upperStr line) "DEBIT") = true
  · rw [if_pos h]
    simp only [Bool.or_eq_true] at h
    exact ⟨fun _ => h, fun _ => rfl⟩
  · rw [if_neg h]
    simp only [Bool.or_eq_true] at h
    constructor
    · intro hc; exact absurd hc (by decide)
    · intro hor; exact absurd hor h

/-! ### Claim C8 -/

/-- The monthly series of the claim's worked example. -/
def demoC8 : List MonthKpi :=
  [⟨"2024-01", 1000, 200⟩, ⟨"2024-02", 1200, 300⟩, ⟨"2024-03", 800, 100⟩]

/-- C8: for every non-empty monthly series and horizon `n`, the forecast
emits exactly `n` rows, each carrying the flat rounded average revenue and
profit of the trailing up-to-3 buckets, with the `i`-th month key computed
by `_add_months_ym` from the last input month; on the claim's example
(`2024-01..03`, months=2) it yields `2024-04` and `2024-05` with forecast
revenue 1000.00 and forecast net cashflow 200.00, and the month arithmetic
rolls over year ends. -/
theorem spec_C8 :
    (∀ (monthly : List MonthKpi) (months : Nat), monthly ≠ [] →
        (forecastList monthly months).length = months ∧
        (∀ i (hi : i < (forecastList monthly months).length),
          (forecastList monthly months).get ⟨i, hi⟩ =
            ⟨_add_months_ym (((monthly.getLast?).map MonthKpi.month).getD "") ((i : Int) + 1),
              round2 (avgRevenue monthly), round2 (avgProfit monthly)⟩)) ∧
    forecastList demoC8 2 = [⟨"2024-04", 1000, 200⟩, ⟨"2024-05", 1000, 200⟩] ∧
    _add_months_ym "2024-11" 3 = "2025-02" := by
  have hgen : ∀ (monthly : List MonthKpi) (months : Nat), monthly ≠ [] →
      (forecastList monthly months).length = months ∧
      (∀ i (hi : i < (forecastList monthly months).length),
        (forecastList monthly months).get ⟨i, hi⟩ =
          ⟨_add_months_ym (((monthly.getLast?).map MonthKpi.month).getD "") (i + 1),
            round2 (avgRevenue monthly), round2 (avgProfit monthly)⟩) := by
    intro monthly months h
    unfold forecastList
    rw [if_neg h]
    constructor
    · rw [List.length_map, List.length_range]
    · intro i hi
      rw [List.get_eq_getElem, List.getElem_map, List.getElem_range]
  refine ⟨hgen, ?_, by decide⟩
  have hne : demoC8 ≠ [] := by simp [demoC8]
  have hlast : ((demoC8.getLast?).map MonthKpi.month).getD "" = "2024-03" := rfl
  have hl : lastN demoC8 = demoC8 := by
    rw [lastN, if_pos (by simp [demoC8])]
    simp [demoC8]
  have havg1 : avgRevenue demoC8 = 1000 := by
    rw [avgRevenue, hl]
    simp only [demoC8, List.map_cons, List.map_nil, List.sum_cons, List.sum_nil,
      List.length_cons, List.length_nil]
    norm_num
  have havg2 : avgProfit demoC8 = 200 := by
    rw [avgProfit, hl]
    simp only [demoC8, List.map_cons, List.map_nil, List.sum_cons, List.sum_nil,
      List.length_cons, List.length_nil]
    norm_num
  have hr1 : round2 (1000 : ℚ) = 1000 := round2_cents ⟨100000, by norm_num⟩
  have hr2 : round2 (200 : ℚ) = 200 := round2_cents ⟨20000, by norm_num⟩
  simp only [forecastList, if_neg hne, hlast, havg1, havg2, hr1, hr2,
    show List.range 2 = [0, 1] from rfl, List.map_cons, List.map_nil]
  decide

/-- C8 witness: the flat-average clause instantiated on the worked example. -/
theorem spec_C8_witness :
    (forecastList demoC8 2).length = 2 :=
  (spec_C8.1 demoC8 2 (by simp [demoC8])).1

/-! ### Claim C9 -/

/-- C9, counterexample: for the document `Total: 1,234.56`, the labelled
currency amount is 1234.56, but the comma is replaced by a space before
matching, so the extractor returns 1.0 (the leading digit group), not the
labelled amount. -/
theorem spec_C9_counterexample :
    _parse_total_amount "Total: 1,234.56" = some 1 ∧
    _parse_total_amount "Total: 1,234.56" ≠ some ((123456 : ℚ) / 100) := by
  have h : searchLabel (replCommas ("Total: 1,234.56").data) = some 100 := by decide
  have hv : _parse_total_amount "Total: 1,234.56" = some (centsToQ 100) := by
    simp only [_parse_total_amount]
    rw [h]
  constructor
  · rw [hv]; norm_num [centsToQ]
  · rw [hv]
    intro hc
    have h2 := Option.some.inj hc
    simp only [centsToQ] at h2
    norm_num at h2

/-- C9, amended: a labelled `total`/`grand total` match is returned in
preference to every other number in the document, where the labelled amount
is the first comma-free numeric token after the label (commas are replaced
by spaces, so a comma-grouped amount contributes only its leading digit
group); with no label match the largest ≥3-digit numeric token is returned;
with neither, no total is returned. -/
theorem spec_C9_amended :
    (∀ (text : String) (c : Nat), searchLabel (replCommas text.data) = some c →
        _parse_total_amount text = some (centsToQ c)) ∧
    (∀ text : String, searchLabel (replCommas text.data) = none →
        _parse_total_amount text = (maxByFirst (findallAmts (replCommas text.data))).map centsToQ) ∧
    (∀ text : String, searchLabel (replCommas text.data) = none →
        findallAmts (replCommas text.data) = [] → _parse_total_amount text = none) ∧
    _parse_total_amount "Grand Total: 250.75  999999" = some ((25075 : ℚ) / 100) ∧
    _parse_total_amount "Invoice 12 items 4567 and 999" = some 4567 ∧
    _parse_total_amount "no numbers here" = none := by
  refine ⟨?_, ?_, ?_, ?_, ?_, by decide⟩
  · intro text c h
    simp only [_parse_total_amount]
    rw [h]
  · intro text h
    simp only [_parse_total_amount]
    rw [h]
  · intro text h1 h2
    simp only [_parse_total_amount]
    rw [h1, h2]
    rfl
  · have h : searchLabel (replCommas ("Grand Total: 250.75  999999").data) = some 25075 := by
      decide
    simp only [_parse_total_amount]
    rw [h]
    norm_num [centsToQ]
  · have h1 : searchLabel (replCommas ("Invoice 12 items 4567 and 999").data) = none := by
      decide
    have h2 : maxByFirst (findallAmts (replCommas ("Invoice 12 items 4567 and 999").data))
        = some 456700 := by decide
    simp only [_parse_total_amount]
    rw [h1, h2]
    simp only [Option.map_some]
    norm_num [centsToQ]

/-- C9 witness: the labelled-total preference clause instantiated on a
concrete document. -/
theorem spec_C9_witness :
    _parse_total_amount "Total 45" = some (centsToQ 4500) :=
  spec_C9_amended.1 "Total 45" 4500 (by decide)

/-! ### Structure of `normalize_transactions` results -/

lemma mapME_ok_length {α β ε : Type} (g : α → Except ε β) :
    ∀ (l : List α) (l2 : List β), mapME g l = .ok l2 → l2.length = l.length := by
  intro l
  induction l with
  | nil =>
      intro l2 h
      cases h
      rfl
  | cons a as_ ih =>
      intro l2 h
      cases hg : g a with
      | error e => simp only [mapME, hg] at h; cases h
      | ok b =>
          cases hm : mapME g as_ with
          | error e => simp only [mapME, hg, hm] at h; cases h
          | ok bs =>
              simp only [mapME, hg, hm, Except.ok.injEq] at h
              subst h
              simp [ih bs hm]

lemma mapME_ok_get {α β ε : Type} (g : α → Except ε β) :
    ∀ (l : List α) (l2 : List β), mapME g l = .ok l2 →
      ∀ i (hi : i < l.length) (hi2 : i < l2.length),
        g (l.get ⟨i, hi⟩) = .ok (l2.get ⟨i, hi2⟩) := by
  intro l
  induction l with
  | nil =>
      intro l2 h i hi
      exact absurd hi (by simp)
  | cons a as_ ih =>
      intro l2 h i hi hi2
      cases hg : g a with
      | error e => simp only [mapME, hg] at h; cases h
      | ok b =>
          cases hm : mapME g as_ with
          | error e => simp only [mapME, hg, hm] at h; cases h
          | ok bs =>
              simp only [mapME, hg, hm, Except.ok.injEq] at h
              subst h
              cases i with
              | zero => simpa using hg
              | succ n =>
                  simpa using ih bs hm n (Nat.lt_of_succ_lt_succ hi)
                    (Nat.lt_of_succ_lt_succ hi2)

lemma mapME_error_of_mem {α β ε : Type} (g : α → Except ε β) :
    ∀ (l : List α) (a : α), a ∈ l → isOkE (g a) = false → isOkE (mapME g l) = false := by
  intro l
  induction l with
  | nil => intro a ha; cases ha
  | cons b bs ih =>
      intro a ha hbad
      cases hg : g b with
      | error e => simp [mapME, hg, isOkE]
      | ok c =>
          rcases List.mem_cons.mp ha with rfl | ha2
          · rw [hg] at hbad; simp [isOkE] at hbad
          · cases hm : mapME g bs with
            | error e => simp [mapME, hg, hm, isOkE]
            | ok ds =>
                have hc := ih a ha2 hbad
                rw [hm] at hc
                simp [isOkE] at hc

lemma mapME_ok_of_all {α β ε : Type} (g : α → Except ε β) :
    ∀ (l : List α), (∀ a ∈ l, isOkE (g a) = true) → ∃ bs, mapME g l = .ok bs := by
  intro l
  induction l with
  | nil => exact fun _ => ⟨[], rfl⟩
  | cons a as_ ih =>
      intro h
      cases hg : g a with
      | error e =>
          have := h a (List.mem_cons_self _ _)
          rw [hg] at this
          simp [isOkE] at this
      | ok b =>
          rcases ih (fun x hx => h x (List.mem_cons_of_mem _ hx)) with ⟨bs, hm⟩
          exact ⟨b :: bs, by simp [mapME, hg, hm]⟩

lemma pickMain_cols_nil (f : Frame) (h : f.cols = []) (names : List String) :
    pickMain f names = none := by
  simp [pickMain, h]

/-- A successful `normalize_transactions` run has one output row per input
row, and each output row is `rowTxn` of that input row and its parsed date. -/
lemma normalize_ok_elems (f : Frame) (cd ca : String) (txns : List Txn)
    (hd : pickMain f dateAliases = some cd) (ha : pickMain f amtAliases = some ca)
    (hok : normalize_transactions f = .ok txns) :
    txns.length = f.rows.length ∧
    ∀ i (hi : i < f.rows.length) (hi2 : i < txns.length),
      ∃ dd, _parse_date_any (cellAt f (f.rows.get ⟨i, hi⟩) cd) = .ok dd ∧
        txns.get ⟨i, hi2⟩ = rowTxn (pickMain f descAliases) (pickMain f catAliases)
          (pickMain f dirAliases) ca f dd (f.rows.get ⟨i, hi⟩) := by
  by_cases hemp : f.rows = [] ∨ f.cols = []
  · rcases hemp with h1 | h2
    · unfold normalize_transactions at hok
      rw [if_pos (Or.inl h1)] at hok
      cases hok
      refine ⟨by simp [h1], ?_⟩
      intro i hi
      rw [h1] at hi
      exact absurd hi (by simp)
    · rw [pickMain_cols_nil f h2] at hd
      cases hd
  · unfold normalize_transactions at hok
    rw [if_neg hemp] at hok
    split at hok
    · rename_i cd2 ca2 heq1 heq2
      rw [hd, Option.some.injEq] at heq1
      rw [ha, Option.some.injEq] at heq2
      subst heq1; subst heq2
      cases hm : mapME (fun r => _parse_date_any (cellAt f r cd)) f.rows with
      | error e => rw [hm] at hok; simp [Except.map] at hok
      | ok dates =>
          rw [hm] at hok
          simp only [Except.map, Except.ok.injEq] at hok
          subst hok
          have hdl : dates.length = f.rows.length := mapME_ok_length _ _ _ hm
          constructor
          · rw [List.length_zipWith, hdl]; exact min_self _
          · intro i hi hi2
            have hdi : i < dates.length := by omega
            refine ⟨dates.get ⟨i, hdi⟩, mapME_ok_get _ _ _ hm i hi hdi, ?_⟩
            simp only [List.get_eq_getElem, List.getElem_zipWith]
    · rename_i hne
      simp at hok

lemma _normalize_direction_cases (v : String) :
    _normalize_direction v = "credit" ∨ _normalize_direction v = "debit" := by
  simp only [_normalize_direction]
  by_cases h1 : lowerStr (stripStr v) ∈ ["credit", "cr", "c", "in", "inflow", "income"]
  · rw [if_pos h1]; left; rfl
  · rw [if_neg h1]
    by_cases h2 : lowerStr (stripStr v) ∈ ["debit", "dr", "d", "out", "outflow", "expense"]
    · rw [if_pos h2]; right; rfl
    · rw [if_neg h2]; right; rfl

/-- The final cleanup `strip().lower()` leaves the two direction values
untouched, so the emitted direction is exactly `dir0`. -/
lemma rowTxn_dir_val (cDesc cCat cDir : Option String) (ca : String) (f : Frame)
    (d : SDate) (r : List Cell) :
    (rowTxn cDesc cCat cDir ca f d r).direction
      = (match cDir with
         | some c => _normalize_direction (cellStr (cellAt f r c))
         | none => if 0 ≤ _safe_float (cellAt f r ca) then "credit" else "debit") := by
  cases cDir with
  | none =>
      simp only [rowTxn]
      by_cases hv : 0 ≤ _safe_float (cellAt f r ca)
      · rw [if_pos hv]; decide
      · rw [if_neg hv]; decide
  | some c =>
      simp only [rowTxn]
      rcases _normalize_direction_cases (cellStr (cellAt f r c)) with h | h <;> rw [h] <;> decide

/-- The stored amount is always the absolute value of `_safe_float` of the
amount cell, in both the explicit-direction and signed-amount branches. -/
lemma rowTxn_amount_val (cDesc cCat cDir : Option String) (ca : String) (f : Frame)
    (d : SDate) (r : List Cell) :
    (rowTxn cDesc cCat cDir ca f d r).amount = |_safe_float (cellAt f r ca)| := by
  simp only [rowTxn]

/-- When the detected category is empty, the emitted category is decided by
the emitted direction: `credit → revenue`, otherwise `expense`. -/
lemma rowTxn_cat_default (cDesc cCat cDir : Option String) (ca : String) (f : Frame)
    (d : SDate) (r : List Cell)
    (hcat : (match cCat with
             | some c => lowerStr (cellStr (cellAt f r c))
             | none => "") = "") :
    (rowTxn cDesc cCat cDir ca f d r).category
      = (if (rowTxn cDesc cCat cDir ca f d r).direction = "credit" then "revenue"
         else "expense") := by
  rw [rowTxn_dir_val]
  have hdir : (match cDir with
      | some c => _normalize_direction (cellStr (cellAt f r c))
      | none => if 0 ≤ _safe_float (cellAt f r ca) then "credit" else "debit") = "credit" ∨
      (match cDir with
      | some c => _normalize_direction (cellStr (cellAt f r c))
      | none => if 0 ≤ _safe_float (cellAt f r ca) then "credit" else "debit") = "debit" := by
    cases cDir with
    | none =>
        by_cases hv : 0 ≤ _safe_float (cellAt f r ca)
        · left; simp [hv]
        · right; simp [hv]
    | some c => exact _normalize_direction_cases _
  rcases hdir with h | h <;> rw [h] <;> simp only [rowTxn] <;> rw [hcat] <;>
    cases cDir <;> simp_all [rowTxn] <;> decide

/-! ### Claim C1 -/

/-- C1: with no explicit direction column, every produced transaction built
from signed amount `v` has direction `credit` iff `v ≥ 0` (else `debit`)
and stores `|v|`, so its amount is non-negative; the `utils.py` signed
amount/direction columns obey the same policy for `pd.to_numeric` values. -/
theorem spec_C1 :
    (∀ (f : Frame) (cd ca : String) (txns : List Txn),
        pickMain f dirAliases = none →
        pickMain f dateAliases = some cd →
        pickMain f amtAliases = some ca →
        normalize_transactions f = .ok txns →
        ∀ i (hi : i < f.rows.length) (hi2 : i < txns.length),
          (txns.get ⟨i, hi2⟩).direction =
            (if 0 ≤ _safe_float (cellAt f (f.rows.get ⟨i, hi⟩) ca) then "credit" else "debit") ∧
          (txns.get ⟨i, hi2⟩).amount = |_safe_float (cellAt f (f.rows.get ⟨i, hi⟩) ca)| ∧
          0 ≤ (txns.get ⟨i, hi2⟩).amount) ∧
    (∀ (vals : List Cell) (i : Nat) (hi : i < vals.length)
        (hi2 : i < (utilsDirections vals).length) (hi3 : i < (utilsAmounts vals).length),
        (utilsDirections vals).get ⟨i, hi2⟩ =
          (if 0 ≤ pdToNumeric0 (vals.get ⟨i, hi⟩) then "credit" else "debit") ∧
        (utilsAmounts vals).get ⟨i, hi3⟩ = |pdToNumeric0 (vals.get ⟨i, hi⟩)| ∧
        0 ≤ (utilsAmounts vals).get ⟨i, hi3⟩) := by
  constructor
  · intro f cd ca txns hdir hd ha hok i hi hi2
    rcases (normalize_ok_elems f cd ca txns hd ha hok).2 i hi hi2 with ⟨dd, _, hrow⟩
    rw [hdir] at hrow
    rw [hrow, rowTxn_dir_val, rowTxn_amount_val]
    exact ⟨rfl, rfl, abs_nonneg _⟩
  · intro vals i hi hi2 hi3
    simp only [utilsDirections, utilsAmounts, List.get_eq_getElem, List.getElem_map]
    exact ⟨trivial, trivial, abs_nonneg _⟩

/-- The concrete frame instantiating C1: one row with signed amount −250. -/
def wFrameC1 : Frame := ⟨["date", "amount"], [[.str "2024-01-05", .num (-250)]]⟩

/-- The batch `normalize_transactions` produces from `wFrameC1`. -/
def wTxnsC1 : List Txn := [⟨⟨2024, 1, 5⟩, "", "expense", "debit", 250⟩]

/-- C1 witness: the signed-amount policy instantiated on a concrete
one-row frame with amount −250. -/
theorem spec_C1_witness :
    (wTxnsC1.get ⟨0, by decide⟩).direction =
      (if 0 ≤ _safe_float (cellAt wFrameC1 (wFrameC1.rows.get ⟨0, by decide⟩) "amount")
       then "credit" else "debit") ∧
    (wTxnsC1.get ⟨0, by decide⟩).amount =
      |_safe_float (cellAt wFrameC1 (wFrameC1.rows.get ⟨0, by decide⟩) "amount")| ∧
    0 ≤ (wTxnsC1.get ⟨0, by decide⟩).amount :=
  spec_C1.1 wFrameC1 "date" "amount" wTxnsC1 (by decide) (by decide) (by decide) (by decide)
    0 (by decide) (by decide)

/-! ### Claim C2 -/

/-- The two-row frame whose second row has an unparseable date. -/
def cxFrameC2 : Frame :=
  ⟨["date", "amount"], [[.str "2024-01-05", .num 100], [.str "xx", .num 50]]⟩

/-- The same frame with only the parseable row. -/
def cxFrameC2good : Frame := ⟨["date", "amount"], [[.str "2024-01-05", .num 100]]⟩

/-- C2, counterexample: one unparseable date among two rows does not drop
that row and return the other — it fails the whole ingestion, even though
the remaining row alone normalizes fine. -/
theorem spec_C2_counterexample :
    normalize_transactions cxFrameC2 = .error "Invalid date: xx" ∧
    normalize_transactions cxFrameC2good =
      .ok [⟨⟨2024, 1, 5⟩, "", "revenue", "credit", 100⟩] := by
  exact ⟨by decide, by decide⟩

/-- C2, amended: tabular normalization is all-or-nothing — a successful run
returns exactly one transaction per input row (nothing is silently
dropped), and any row whose date fails to parse makes the whole ingestion
fail, even when other rows would parse. -/
theorem spec_C2_amended :
    (∀ (f : Frame) (cd : String) (txns : List Txn),
        pickMain f dateAliases = some cd →
        normalize_transactions f = .ok txns →
        txns.length = f.rows.length) ∧
    (∀ (f : Frame) (cd : String) (r : List Cell),
        pickMain f dateAliases = some cd →
        r ∈ f.rows →
        isOkE (_parse_date_any (cellAt f r cd)) = false →
        isOkE (normalize_transactions f) = false) := by
  constructor
  · intro f cd txns hd hok
    by_cases hemp : f.rows = [] ∨ f.cols = []
    · rcases hemp with h1 | h2
      · unfold normalize_transactions at hok
        rw [if_pos (Or.inl h1)] at hok
        cases hok
        simp [h1]
      · rw [pickMain_cols_nil f h2] at hd
        cases hd
    · cases ha : pickMain f amtAliases with
      | none =>
          unfold normalize_transactions at hok
          rw [if_neg hemp] at hok
          split at hok
          · rename_i ca2 heq1 heq2
            rw [ha] at heq2
            cases heq2
          · cases hok
      | some ca => exact (normalize_ok_elems f cd ca txns hd ha hok).1
  · intro f cd r hd hr hbad
    by_cases hemp : f.rows = [] ∨ f.cols = []
    · rcases hemp with h1 | h2
      · rw [h1] at hr; cases hr
      · rw [pickMain_cols_nil f h2] at hd; cases hd
    · unfold normalize_transactions
      rw [if_neg hemp]
      split
      · rename_i cd2 ca2 heq1 heq2
        rw [hd, Option.some.injEq] at heq1
        subst heq1
        cases hm : mapME (fun r2 => _parse_date_any (cellAt f r2 cd)) f.rows with
        | error e => simp [Except.map, isOkE]
        | ok dates =>
            have := mapME_error_of_mem (fun r2 => _parse_date_any (cellAt f r2 cd)) f.rows r hr hbad
            rw [hm] at this
            simp [isOkE] at this
      · simp [isOkE]

/-- C2 witness: the no-drop clause instantiated on the one-row frame. -/
theorem spec_C2_amended_witness :
    ([⟨⟨2024, 1, 5⟩, "", "revenue", "credit", (100 : ℚ)⟩] : List Txn).length
      = cxFrameC2good.rows.length :=
  spec_C2_amended.1 cxFrameC2good "date"
    [⟨⟨2024, 1, 5⟩, "", "revenue", "credit", (100 : ℚ)⟩] (by decide) (by decide)

/-! ### Claim C3 -/

lemma cat_iff_of_eq {c d : String} (h : c = (if d = "credit" then "revenue" else "expense")) :
    (c = "revenue" ↔ d = "credit") := by
  by_cases hd : d = "credit"
  · rw [if_pos hd] at h
    exact ⟨fun _ => hd, fun _ => h⟩
  · rw [if_neg hd] at h
    subst h
    constructor
    · intro hc; exact absurd hc (by decide)
    · intro hc; exact absurd hc hd

/-- C3: whenever the detected category of a row is empty, the produced
transaction's category is assigned from its direction during normalization
(`credit → revenue`, else `expense`), so category is `revenue` exactly when
direction is `credit`. -/
theorem spec_C3 (f : Frame) (cd ca : String) (txns : List Txn)
    (hd : pickMain f dateAliases = some cd) (ha : pickMain f amtAliases = some ca)
    (hok : normalize_transactions f = .ok txns)
    (i : Nat) (hi : i < f.rows.length) (hi2 : i < txns.length)
    (hcat : detectedCat f (f.rows.get ⟨i, hi⟩) = "") :
    (txns.get ⟨i, hi2⟩).category =
      (if (txns.get ⟨i, hi2⟩).direction = "credit" then "revenue" else "expense") ∧
    ((txns.get ⟨i, hi2⟩).category = "revenue" ↔ (txns.get ⟨i, hi2⟩).direction = "credit") := by
  rcases (normalize_ok_elems f cd ca txns hd ha hok).2 i hi hi2 with ⟨dd, _, hrow⟩
  have hcat2 : (match pickMain f catAliases with
      | some c => lowerStr (cellStr (cellAt f (f.rows.get ⟨i, hi⟩) c))
      | none => "") = "" := hcat
  have hcd := rowTxn_cat_default (pickMain f descAliases) (pickMain f catAliases)
    (pickMain f dirAliases) ca f dd (f.rows.get ⟨i, hi⟩) hcat2
  rw [hrow]
  exact ⟨hcd, cat_iff_of_eq hcd⟩

/-- A frame with an explicit direction column and no category column. -/
def wFrameC3 : Frame :=
  ⟨["date", "amount", "direction"], [[.str "2024-02-03", .num 50, .str "DR"]]⟩

/-- The batch produced from `wFrameC3`. -/
def wTxnsC3 : List Txn := [⟨⟨2024, 2, 3⟩, "", "expense", "debit", 50⟩]

/-- C3 witness: the category default instantiated on a concrete `DR` row
with no category column. -/
theorem spec_C3_witness :
    (wTxnsC3.get ⟨0, by decide⟩).category =
      (if (wTxnsC3.get ⟨0, by decide⟩).direction = "credit" then "revenue" else "expense") ∧
    ((wTxnsC3.get ⟨0, by decide⟩).category = "revenue" ↔
      (wTxnsC3.get ⟨0, by decide⟩).direction = "credit") :=
  spec_C3 wFrameC3 "date" "amount" wTxnsC3 (by decide) (by decide) (by decide)
    0 (by decide) (by decide) (by decide)

/-! ### Claim C10 -/

/-- An amount cell the claim calls empty, missing, or non-numeric: NaN, or
a string that is empty (after comma removal and stripping) or fails float
parsing. -/
def badAmountCell (x : Cell) : Prop :=
  x = .nan ∨ ∃ s, x = .str s ∧
    (stripL (s.data.filter (fun c => c ≠ ',')) = [] ∨
      pf (stripL (s.data.filter (fun c => c ≠ ','))) = none)

lemma _safe_float_bad {x : Cell} (h : badAmountCell x) : _safe_float x = 0 := by
  rcases h with rfl | ⟨s, rfl, h2 | h2⟩
  · rfl
  · simp only [_safe_float]
    rw [if_pos h2]
  · simp only [_safe_float]
    by_cases he : stripL (s.data.filter (fun c => c ≠ ',')) = []
    · rw [if_pos he]
    · rw [if_neg he, h2]; rfl

/-- C10: when every date parses, normalization succeeds with one output row
per input row (no error, no drop); and with no direction column, a row whose
amount cell is NaN, empty, or non-numeric yields a credit transaction of
amount 0. -/
theorem spec_C10 :
    (∀ (f : Frame) (cd ca : String),
        pickMain f dateAliases = some cd →
        pickMain f amtAliases = some ca →
        (∀ r ∈ f.rows, isOkE (_parse_date_any (cellAt f r cd)) = true) →
        ∃ txns, normalize_transactions f = .ok txns ∧ txns.length = f.rows.length) ∧
    (∀ (f : Frame) (cd ca : String) (txns : List Txn),
        pickMain f dirAliases = none →
        pickMain f dateAliases = some cd →
        pickMain f amtAliases = some ca →
        normalize_transactions f = .ok txns →
        ∀ i (hi : i < f.rows.length) (hi2 : i < txns.length),
          badAmountCell (cellAt f (f.rows.get ⟨i, hi⟩) ca) →
          (txns.get ⟨i, hi2⟩).direction = "credit" ∧ (txns.get ⟨i, hi2⟩).amount = 0) := by
  constructor
  · intro f cd ca hd ha hall
    by_cases hemp : f.rows = [] ∨ f.cols = []
    · rcases hemp with h1 | h2
      · refine ⟨[], ?_, by simp [h1]⟩
        unfold normalize_transactions
        rw [if_pos (Or.inl h1)]
      · rw [pickMain_cols_nil f h2] at hd
        cases hd
    · rcases mapME_ok_of_all (fun r => _parse_date_any (cellAt f r cd)) f.rows hall with
        ⟨dates, hm⟩
      refine ⟨List.zipWith (rowTxn (pickMain f descAliases) (pickMain f catAliases)
        (pickMain f dirAliases) ca f) dates f.rows, ?_, ?_⟩
      · unfold normalize_transactions
        rw [if_neg hemp]
        split
        · rename_i cd2 ca2 heq1 heq2
          rw [hd, Option.some.injEq] at heq1
          rw [ha, Option.some.injEq] at heq2
          subst heq1; subst heq2
          rw [hm]
          rfl
        · rename_i hno
          exact (hno cd ca hd ha).elim
      · rw [List.length_zipWith, mapME_ok_length _ _ _ hm]
        exact min_self _
  · intro f cd ca txns hdir hd ha hok i hi hi2 hbad
    rcases (normalize_ok_elems f cd ca txns hd ha hok).2 i hi hi2 with ⟨dd, _, hrow⟩
    rw [hdir] at hrow
    constructor
    · rw [hrow, rowTxn_dir_val, _safe_float_bad hbad]
      show (if (0 : ℚ) ≤ 0 then "credit" else "debit") = "credit"
      rw [if_pos (le_refl (0 : ℚ))]
    · rw [hrow, rowTxn_amount_val, _safe_float_bad hbad]
      exact abs_zero

/-- A frame whose amount cells are an empty string, a non-numeric string,
and NaN. -/
def wFrameC10 : Frame :=
  ⟨["date", "amount"],
   [[.str "2024-03-01", .str ""], [.str "2024-03-02", .str "abc"], [.str "2024-03-03", .nan]]⟩

/-- The batch produced from `wFrameC10`. -/
def wTxnsC10 : List Txn :=
  [⟨⟨2024, 3, 1⟩, "", "revenue", "credit", 0⟩,
   ⟨⟨2024, 3, 2⟩, "", "revenue", "credit", 0⟩,
   ⟨⟨2024, 3, 3⟩, "", "revenue", "credit", 0⟩]

/-- C10 witness: both clauses instantiated on the concrete frame — all three
rows are kept, and the non-numeric row becomes a credit of 0. -/
theorem spec_C10_witness :
    (∃ txns, normalize_transactions wFrameC10 = .ok txns ∧
      txns.length = wFrameC10.rows.length) ∧
    ((wTxnsC10.get ⟨1, by decide⟩).direction = "credit" ∧
      (wTxnsC10.get ⟨1, by decide⟩).amount = 0) :=
  ⟨spec_C10.1 wFrameC10 "date" "amount" (by decide) (by decide) (by decide),
    spec_C10.2 wFrameC10 "date" "amount" wTxnsC10 (by decide) (by decide) (by decide)
      (by decide) 1 (by decide) (by decide)
      (Or.inr ⟨"abc", rfl, Or.inr (by decide)⟩)⟩

end FinHealth

